import Mathlib

/-!
Shallow embedding of the RevoraRevenueShare Soroban contract (src/src/lib.rs).

Addresses are modelled as natural numbers (opaque identifiers with decidable
equality).  The persistent key-value store is modelled by three association
lists, one per `DataKey` constructor (`Offering(issuer, token)`,
`IssuerOfferings(issuer)`, `Blacklist(token)`); constructors of the Rust
`DataKey` enum never collide, so the split is faithful.  Soroban's
`Map<Address, bool>` is an ordered map; it is modelled as a key-sorted
association list with the same `set` / `remove` / `get` / `keys` behaviour.

Host authorization (`require_auth`) is modelled as an explicit predicate
`auth : Addr → Bool` passed to each entry point; a failing `require_auth`
aborts the call.  Rust `panic!`s abort the whole transaction with no state
writes, so every entry point returns `Except ContractError (State × events)`:
an `error` result carries no state, matching the host's atomic rollback.
-/

abbrev Addr := Nat

inductive OfferingStatus where
  | active
  | suspended
  | closed
deriving DecidableEq, Repr

structure Offering where
  issuer : Addr
  token : Addr
  revenue_share_bps : Nat
  status : OfferingStatus
deriving DecidableEq, Repr

inductive ContractError where
  | unauthorized
  | invalidParameter
  | alreadyExists
deriving DecidableEq, Repr

inductive Event where
  | offerReg (issuer token : Addr) (bps : Nat)
  | revRep (issuer token : Addr) (amount : Int) (periodId : Nat) (blacklist : List Addr)
  | blAdd (token caller investor : Addr)
  | blRem (token caller investor : Addr)
deriving DecidableEq, Repr

/-- Lookup in an association list (`storage().get`). -/
def assocGet {α β : Type} [DecidableEq α] (l : List (α × β)) (k : α) : Option β :=
  match l with
  | [] => none
  | (k', v) :: rest => if k' = k then some v else assocGet rest k

/-- `storage().has`. -/
def assocHas {α β : Type} [DecidableEq α] (l : List (α × β)) (k : α) : Bool :=
  (assocGet l k).isSome

/-- `storage().set`: replace the value at a key, or append a fresh entry. -/
def assocSet {α β : Type} [DecidableEq α] (l : List (α × β)) (k : α) (v : β) :
    List (α × β) :=
  match l with
  | [] => [(k, v)]
  | (k', v') :: rest => if k' = k then (k, v) :: rest else (k', v') :: assocSet rest k v

/-- `Map::set` of the Soroban ordered map: insert in key order, replacing
an existing entry for the same key. -/
def mapSet (m : List (Addr × Bool)) (k : Addr) (v : Bool) : List (Addr × Bool) :=
  match m with
  | [] => [(k, v)]
  | (k', v') :: rest =>
    if k < k' then (k, v) :: (k', v') :: rest
    else if k = k' then (k, v) :: rest
    else (k', v') :: mapSet rest k v

/-- `Map::remove`: drop the entry for a key, no-op when absent. -/
def mapRemove (m : List (Addr × Bool)) (k : Addr) : List (Addr × Bool) :=
  match m with
  | [] => []
  | (k', v') :: rest => if k = k' then rest else (k', v') :: mapRemove rest k

/-- `Map::get`. -/
def mapGet (m : List (Addr × Bool)) (k : Addr) : Option Bool :=
  match m with
  | [] => none
  | (k', v') :: rest => if k' = k then some v' else mapGet rest k

/-- `Map::keys`. -/
def mapKeys (m : List (Addr × Bool)) : List Addr :=
  m.map Prod.fst

/-- The persisted contract state: one association list per `DataKey`
constructor of the source. -/
structure ContractState where
  offeringStore : List ((Addr × Addr) × Offering)
  issuerOfferingsStore : List (Addr × List Addr)
  blacklistStore : List (Addr × List (Addr × Bool))
deriving DecidableEq, Repr

def emptyState : ContractState := ⟨[], [], []⟩

/-- `register_offering` (src/src/lib.rs:46-81): authorize the issuer, reject
bps above 10000, reject an existing `(issuer, token)` offering, then persist
the `Offering`, append the token to the issuer's index and emit one event. -/
def register_offering (auth : Addr → Bool) (s : ContractState)
    (issuer token : Addr) (revenue_share_bps : Nat) :
    Except ContractError (ContractState × List Event) :=
  if auth issuer then
    if revenue_share_bps > 10000 then
      Except.error ContractError.invalidParameter
    else if assocHas s.offeringStore (issuer, token) then
      Except.error ContractError.alreadyExists
    else
      let offering : Offering := ⟨issuer, token, revenue_share_bps, OfferingStatus.active⟩
      let s1 : ContractState :=
        { s with offeringStore := assocSet s.offeringStore (issuer, token) offering }
      let tokens : List Addr := (assocGet s1.issuerOfferingsStore issuer).getD []
      let s2 : ContractState :=
        { s1 with issuerOfferingsStore :=
            assocSet s1.issuerOfferingsStore issuer (tokens ++ [token]) }
      Except.ok (s2, [Event.offerReg issuer token revenue_share_bps])
  else Except.error ContractError.unauthorized

/-- `get_offering` (src/src/lib.rs:84-87). -/
def get_offering (s : ContractState) (issuer token : Addr) : Option Offering :=
  assocGet s.offeringStore (issuer, token)

/-- `list_offerings` (src/src/lib.rs:90-96). -/
def list_offerings (s : ContractState) (issuer : Addr) : List Addr :=
  (assocGet s.issuerOfferingsStore issuer).getD []

/-- `is_blacklisted` (src/src/lib.rs:160-167). -/
def is_blacklisted (s : ContractState) (token investor : Addr) : Bool :=
  match assocGet s.blacklistStore token with
  | some m => (mapGet m investor).getD false
  | none => false

/-- `get_blacklist` (src/src/lib.rs:170-177). -/
def get_blacklist (s : ContractState) (token : Addr) : List Addr :=
  match assocGet s.blacklistStore token with
  | some m => mapKeys m
  | none => []

/-- `report_revenue` (src/src/lib.rs:102-117): authorize the issuer, read the
current blacklist, emit one event carrying it; no storage write. -/
def report_revenue (auth : Addr → Bool) (s : ContractState)
    (issuer token : Addr) (amount : Int) (period_id : Nat) :
    Except ContractError (ContractState × List Event) :=
  if auth issuer then
    Except.ok (s, [Event.revRep issuer token amount period_id (get_blacklist s token)])
  else Except.error ContractError.unauthorized

/-- `blacklist_add` (src/src/lib.rs:124-138). -/
def blacklist_add (auth : Addr → Bool) (s : ContractState)
    (caller token investor : Addr) :
    Except ContractError (ContractState × List Event) :=
  if auth caller then
    let m : List (Addr × Bool) := (assocGet s.blacklistStore token).getD []
    let m' : List (Addr × Bool) := mapSet m investor true
    Except.ok ({ s with blacklistStore := assocSet s.blacklistStore token m' },
      [Event.blAdd token caller investor])
  else Except.error ContractError.unauthorized

/-- `blacklist_remove` (src/src/lib.rs:143-157). -/
def blacklist_remove (auth : Addr → Bool) (s : ContractState)
    (caller token investor : Addr) :
    Except ContractError (ContractState × List Event) :=
  if auth caller then
    let m : List (Addr × Bool) := (assocGet s.blacklistStore token).getD []
    let m' : List (Addr × Bool) := mapRemove m investor
    Except.ok ({ s with blacklistStore := assocSet s.blacklistStore token m' },
      [Event.blRem token caller investor])
  else Except.error ContractError.unauthorized

/-- Modelled from the spec: `get_offering_count(issuer)` does not appear in
src/ (spec section 4.1 lists it in the public surface); per the spec it is the
issuer's total offering count, 0 for an unknown issuer, derived from the
issuer's ordered index. -/
def get_offering_count (s : ContractState) (issuer : Addr) : Nat :=
  (list_offerings s issuer).length

/-- Modelled from the spec: the fixed pagination cap `MAX_PAGE_LIMIT = 20`. -/
def MAX_PAGE_LIMIT : Nat := 20

/-- Modelled from the spec: the clamped page limit; `limit` unless it is `0`
or exceeds `MAX_PAGE_LIMIT`, in which case `MAX_PAGE_LIMIT`. -/
def effectiveLimit (limit : Nat) : Nat :=
  if limit = 0 ∨ limit > MAX_PAGE_LIMIT then MAX_PAGE_LIMIT else limit

/-- Modelled from the spec: `get_offerings_page(issuer, start, limit)` does
not appear in src/ (spec section 4.1 defines its algorithm); it pages through
the issuer's offerings in creation order, deriving the paginated view from the
issuer's ordered token index per spec section 9, and returns the next unread
index as cursor. -/
def get_offerings_page (s : ContractState) (issuer : Addr) (start limit : Nat) :
    List Offering × Option Nat :=
  let count := get_offering_count s issuer
  if start ≥ count then ([], none)
  else
    let stop := min (start + effectiveLimit limit) count
    let tokens := list_offerings s issuer
    let items := ((tokens.drop start).take (stop - start)).filterMap
      (fun tk => get_offering s issuer tk)
    (items, if stop < count then some stop else none)

/-- The all-permissive authorization environment (`mock_all_auths` in the
source tests). -/
def authAll : Addr → Bool := fun _ => true

deriving instance DecidableEq for Except

/-- Concrete state after `register_offering(0, 1, 500)` on the empty store. -/
def sReg : ContractState :=
  ⟨[((0, 1), ⟨0, 1, 500, OfferingStatus.active⟩)], [(0, [1])], []⟩

/-- Concrete state after `register_offering(0, 10, 500)` on the empty store. -/
def sPage1 : ContractState :=
  ⟨[((0, 10), ⟨0, 10, 500, OfferingStatus.active⟩)], [(0, [10])], []⟩

/-- Concrete state after a further `register_offering(0, 11, 600)`. -/
def sPage2 : ContractState :=
  ⟨[((0, 10), ⟨0, 10, 500, OfferingStatus.active⟩),
    ((0, 11), ⟨0, 11, 600, OfferingStatus.active⟩)], [(0, [10, 11])], []⟩

/-- Concrete state after `blacklist_add(0, 7, 3)` on the empty store. -/
def sBl : ContractState :=
  ⟨[], [], [(7, [(3, true)])]⟩

/-- States reachable from the empty store by successful public entry points;
query entry points do not mutate state and need no step constructor. -/
inductive Reachable : ContractState → Prop where
  | empty : Reachable emptyState
  | register (auth : Addr → Bool) (s : ContractState) (issuer token : Addr)
      (bps : Nat) (s' : ContractState) (ev : List Event) (h : Reachable s)
      (heq : register_offering auth s issuer token bps = Except.ok (s', ev)) :
      Reachable s'
  | report (auth : Addr → Bool) (s : ContractState) (issuer token : Addr)
      (amount : Int) (pid : Nat) (s' : ContractState) (ev : List Event)
      (h : Reachable s)
      (heq : report_revenue auth s issuer token amount pid = Except.ok (s', ev)) :
      Reachable s'
  | bladd (auth : Addr → Bool) (s : ContractState) (caller token investor : Addr)
      (s' : ContractState) (ev : List Event) (h : Reachable s)
      (heq : blacklist_add auth s caller token investor = Except.ok (s', ev)) :
      Reachable s'
  | blrem (auth : Addr → Bool) (s : ContractState) (caller token investor : Addr)
      (s' : ContractState) (ev : List Event) (h : Reachable s)
      (heq : blacklist_remove auth s caller token investor = Except.ok (s', ev)) :
      Reachable s'

/-! ### Association-list and ordered-map lemmas -/

theorem assocGet_set_self {α β : Type} [DecidableEq α] (l : List (α × β)) (k : α) (v : β) :
    assocGet (assocSet l k v) k = some v := by
  induction l with
  | nil => simp [assocGet, assocSet]
  | cons p rest ih =>
    obtain ⟨k', v'⟩ := p
    by_cases hk : k' = k
    · subst hk
      simp [assocGet, assocSet]
    · simp [assocGet, assocSet, hk, ih]

theorem assocGet_set_ne {α β : Type} [DecidableEq α] (l : List (α × β)) (k k' : α) (v : β)
    (hne : k ≠ k') : assocGet (assocSet l k v) k' = assocGet l k' := by
  induction l with
  | nil => simp [assocGet, assocSet, hne]
  | cons p rest ih =>
    obtain ⟨a, b⟩ := p
    by_cases ha : a = k
    · subst ha
      simp [assocGet, assocSet, hne]
    · simp [assocGet, assocSet, ha, ih]

theorem assocSet_eq_of_get {α β : Type} [DecidableEq α] (l : List (α × β)) (k : α) (v : β)
    (h : assocGet l k = some v) : assocSet l k v = l := by
  induction l with
  | nil => simp [assocGet] at h
  | cons p rest ih =>
    obtain ⟨a, b⟩ := p
    by_cases ha : a = k
    · subst ha
      simp [assocGet] at h
      simp [assocSet, h]
    · simp [assocGet, ha] at h
      simp [assocSet, ha, ih h]

theorem mapGet_set_self (m : List (Addr × Bool)) (k : Addr) (v : Bool) :
    mapGet (mapSet m k v) k = some v := by
  induction m with
  | nil => simp [mapGet, mapSet]
  | cons p rest ih =>
    obtain ⟨a, b⟩ := p
    by_cases hlt : k < a
    · simp [mapGet, mapSet, hlt]
    · by_cases heq : k = a
      · simp [mapGet, mapSet, hlt, heq]
      · have hne : a ≠ k := fun h => heq h.symm
        simp [mapGet, mapSet, hlt, heq, hne, ih]

theorem mem_mapSet (m : List (Addr × Bool)) (k : Addr) (v : Bool) (p : Addr × Bool)
    (hp : p ∈ mapSet m k v) : p = (k, v) ∨ p ∈ m := by
  induction m with
  | nil =>
    simp [mapSet] at hp
    exact Or.inl hp
  | cons q rest ih =>
    obtain ⟨a, b⟩ := q
    by_cases hlt : k < a
    · simp [mapSet, hlt] at hp
      rcases hp with h | h | h
      · exact Or.inl h
      · exact Or.inr (by simp [h])
      · exact Or.inr (by simp [h])
    · by_cases heq : k = a
      · subst heq
        simp [mapSet, hlt] at hp
        rcases hp with h | h
        · exact Or.inl h
        · exact Or.inr (by simp [h])
      · simp [mapSet, hlt, heq] at hp
        rcases hp with h | h
        · exact Or.inr (by simp [h])
        · rcases ih h with h1 | h1
          · exact Or.inl h1
          · exact Or.inr (by simp [h1])

theorem mem_mapRemove (m : List (Addr × Bool)) (k : Addr) (p : Addr × Bool)
    (hp : p ∈ mapRemove m k) : p ∈ m := by
  induction m with
  | nil => simp [mapRemove] at hp
  | cons q rest ih =>
    obtain ⟨a, b⟩ := q
    by_cases heq : k = a
    · simp [mapRemove, heq] at hp
      exact List.mem_cons_of_mem _ hp
    · simp [mapRemove, heq] at hp
      rcases hp with h | h
      · simp [h]
      · exact List.mem_cons_of_mem _ (ih h)

theorem mapGet_eq_none_iff (m : List (Addr × Bool)) (x : Addr) :
    mapGet m x = none ↔ x ∉ mapKeys m := by
  induction m with
  | nil => simp [mapGet, mapKeys]
  | cons q rest ih =>
    obtain ⟨a, b⟩ := q
    by_cases ha : a = x
    · subst ha
      simp [mapGet, mapKeys]
    · have hx : x ≠ a := fun h => ha h.symm
      simp [mapGet, mapKeys, ha, hx] at ih ⊢
      exact ih

theorem mapGet_mem (m : List (Addr × Bool)) (x : Addr) (v : Bool)
    (h : mapGet m x = some v) : (x, v) ∈ m := by
  induction m with
  | nil => simp [mapGet] at h
  | cons q rest ih =>
    obtain ⟨a, b⟩ := q
    by_cases ha : a = x
    · subst ha
      simp [mapGet] at h
      simp [h]
    · simp [mapGet, ha] at h
      exact List.mem_cons_of_mem _ (ih h)

theorem mapRemove_of_not_mem (m : List (Addr × Bool)) (x : Addr)
    (h : x ∉ mapKeys m) : mapRemove m x = m := by
  induction m with
  | nil => simp [mapRemove]
  | cons q rest ih =>
    obtain ⟨a, b⟩ := q
    simp [mapKeys] at h
    simp [mapRemove, h.1, ih (by simp [mapKeys, h.2])]

/-! ### Inversion of successful entry-point calls -/

theorem register_offering_ok (auth : Addr → Bool) (s : ContractState)
    (issuer token : Addr) (bps : Nat) (s' : ContractState) (ev : List Event)
    (h : register_offering auth s issuer token bps = Except.ok (s', ev)) :
    auth issuer = true ∧ bps ≤ 10000 ∧
    assocHas s.offeringStore (issuer, token) = false ∧
    s' = { s with
      offeringStore := assocSet s.offeringStore (issuer, token)
        ⟨issuer, token, bps, OfferingStatus.active⟩,
      issuerOfferingsStore := assocSet s.issuerOfferingsStore issuer
        ((assocGet s.issuerOfferingsStore issuer).getD [] ++ [token]) } ∧
    ev = [Event.offerReg issuer token bps] := by
  cases hauth : auth issuer with
  | false => simp [register_offering, hauth] at h
  | true =>
    by_cases hbps : bps > 10000
    · simp [register_offering, hauth, hbps] at h
    · cases hhas : assocHas s.offeringStore (issuer, token) with
      | true => simp [register_offering, hauth, hbps, hhas] at h
      | false =>
        simp [register_offering, hauth, hbps, hhas] at h
        exact ⟨rfl, Nat.le_of_not_lt hbps, rfl, h.1.symm, h.2.symm⟩

theorem report_revenue_ok (auth : Addr → Bool) (s : ContractState)
    (issuer token : Addr) (amount : Int) (pid : Nat) (s' : ContractState)
    (ev : List Event)
    (h : report_revenue auth s issuer token amount pid = Except.ok (s', ev)) :
    auth issuer = true ∧ s' = s ∧
    ev = [Event.revRep issuer token amount pid (get_blacklist s token)] := by
  cases hauth : auth issuer with
  | false => simp [report_revenue, hauth] at h
  | true =>
    simp [report_revenue, hauth] at h
    exact ⟨rfl, h.1.symm, h.2.symm⟩

theorem blacklist_add_ok (auth : Addr → Bool) (s : ContractState)
    (caller token investor : Addr) (s' : ContractState) (ev : List Event)
    (h : blacklist_add auth s caller token investor = Except.ok (s', ev)) :
    auth caller = true ∧
    s' = { s with
      blacklistStore := assocSet s.blacklistStore token
        (mapSet ((assocGet s.blacklistStore token).getD []) investor true) } ∧
    ev = [Event.blAdd token caller investor] := by
  cases hauth : auth caller with
  | false => simp [blacklist_add, hauth] at h
  | true =>
    simp [blacklist_add, hauth] at h
    exact ⟨rfl, h.1.symm, h.2.symm⟩

theorem blacklist_remove_ok (auth : Addr → Bool) (s : ContractState)
    (caller token investor : Addr) (s' : ContractState) (ev : List Event)
    (h : blacklist_remove auth s caller token investor = Except.ok (s', ev)) :
    auth caller = true ∧
    s' = { s with
      blacklistStore := assocSet s.blacklistStore token
        (mapRemove ((assocGet s.blacklistStore token).getD []) investor) } ∧
    ev = [Event.blRem token caller investor] := by
  cases hauth : auth caller with
  | false => simp [blacklist_remove, hauth] at h
  | true =>
    simp [blacklist_remove, hauth] at h
    exact ⟨rfl, h.1.symm, h.2.symm⟩

/-! ### Invariants of reachable states -/

/-- Every value stored in a blacklist map is `true`: `blacklist_add` only
ever stores `true` and `blacklist_remove` only deletes entries. -/
def BLValuesTrue (s : ContractState) : Prop :=
  ∀ t m, assocGet s.blacklistStore t = some m → ∀ p ∈ m, p.2 = true

/-- Every token in an issuer's index has a registered offering. -/
def OfferingsIndexed (s : ContractState) : Prop :=
  ∀ issuer tk, tk ∈ list_offerings s issuer →
    (get_offering s issuer tk).isSome = true

theorem reachable_blacklist_values_true (s : ContractState) (hs : Reachable s) :
    BLValuesTrue s := by
  induction hs with
  | empty =>
    intro t m hm
    simp [emptyState, assocGet] at hm
  | register auth s issuer token bps s' ev h heq ih =>
    obtain ⟨-, -, -, hs', -⟩ := register_offering_ok auth s issuer token bps s' ev heq
    subst hs'
    intro t m hm
    exact ih t m hm
  | report auth s issuer token amount pid s' ev h heq ih =>
    obtain ⟨-, hs', -⟩ := report_revenue_ok auth s issuer token amount pid s' ev heq
    subst hs'
    exact ih
  | bladd auth s caller token investor s' ev h heq ih =>
    obtain ⟨-, hs', -⟩ := blacklist_add_ok auth s caller token investor s' ev heq
    subst hs'
    intro t m hm p hp
    by_cases ht : token = t
    · subst ht
      rw [assocGet_set_self] at hm
      obtain rfl : mapSet ((assocGet s.blacklistStore token).getD []) investor true = m :=
        Option.some_injective _ hm
      rcases mem_mapSet _ _ _ _ hp with h1 | h1
      · rw [h1]
      · cases hbase : assocGet s.blacklistStore token with
        | none => rw [hbase] at h1; simp at h1
        | some m0 =>
          rw [hbase] at h1
          exact ih token m0 hbase p h1
    · rw [assocGet_set_ne _ _ _ _ ht] at hm
      exact ih t m hm p hp
  | blrem auth s caller token investor s' ev h heq ih =>
    obtain ⟨-, hs', -⟩ := blacklist_remove_ok auth s caller token investor s' ev heq
    subst hs'
    intro t m hm p hp
    by_cases ht : token = t
    · subst ht
      rw [assocGet_set_self] at hm
      obtain rfl : mapRemove ((assocGet s.blacklistStore token).getD []) investor = m :=
        Option.some_injective _ hm
      have h1 := mem_mapRemove _ _ _ hp
      cases hbase : assocGet s.blacklistStore token with
      | none => rw [hbase] at h1; simp at h1
      | some m0 =>
        rw [hbase] at h1
        exact ih token m0 hbase p h1
    · rw [assocGet_set_ne _ _ _ _ ht] at hm
      exact ih t m hm p hp

theorem reachable_offerings_indexed (s : ContractState) (hs : Reachable s) :
    OfferingsIndexed s := by
  induction hs with
  | empty =>
    intro issuer tk htk
    simp [emptyState, list_offerings, assocGet] at htk
  | register auth s issuer0 token0 bps s' ev h heq ih =>
    obtain ⟨-, -, -, hs', -⟩ := register_offering_ok auth s issuer0 token0 bps s' ev heq
    subst hs'
    intro issuer tk htk
    unfold list_offerings at htk
    unfold get_offering
    by_cases hi : issuer0 = issuer
    · subst hi
      rw [assocGet_set_self] at htk
      simp only [Option.getD_some] at htk
      rcases List.mem_append.mp htk with hold | hnew
      · by_cases htk0 : tk = token0
        · subst htk0
          simp [assocGet_set_self]
        · have hkey : ((issuer0, token0) : Addr × Addr) ≠ (issuer0, tk) := by
            simp [htk0]
            intro hc
            exact htk0 hc.symm
          rw [assocGet_set_ne _ _ _ _ hkey]
          exact ih issuer0 tk (by unfold list_offerings; exact hold)
      · simp only [List.mem_singleton] at hnew
        subst hnew
        simp [assocGet_set_self]
    · rw [assocGet_set_ne _ _ _ _ hi] at htk
      have hkey : ((issuer0, token0) : Addr × Addr) ≠ (issuer, tk) := by
        intro hc
        exact hi (congrArg Prod.fst hc)
      rw [assocGet_set_ne _ _ _ _ hkey]
      exact ih issuer tk htk
  | report auth s issuer token amount pid s' ev h heq ih =>
    obtain ⟨-, hs', -⟩ := report_revenue_ok auth s issuer token amount pid s' ev heq
    subst hs'
    exact ih
  | bladd auth s caller token investor s' ev h heq ih =>
    obtain ⟨-, hs', -⟩ := blacklist_add_ok auth s caller token investor s' ev heq
    subst hs'
    intro issuer tk htk
    exact ih issuer tk htk
  | blrem auth s caller token investor s' ev h heq ih =>
    obtain ⟨-, hs', -⟩ := blacklist_remove_ok auth s caller token investor s' ev heq
    subst hs'
    intro issuer tk htk
    exact ih issuer tk htk

/-- `filterMap` over a list on which the function never fails preserves
length and acts pointwise. -/
theorem filterMap_total {γ δ : Type} (g : γ → Option δ) (l : List γ)
    (h : ∀ x ∈ l, (g x).isSome = true) :
    (l.filterMap g).length = l.length ∧
    ∀ j : Nat, (l.filterMap g)[j]? = (l[j]?).bind g := by
  induction l with
  | nil => simp
  | cons a rest ih =>
    have ha : (g a).isSome = true := h a (by simp)
    obtain ⟨b, hb⟩ := Option.isSome_iff_exists.mp ha
    have hrest := ih (fun x hx => h x (by simp [hx]))
    constructor
    · simp [List.filterMap_cons, hb, hrest.1]
    · intro j
      cases j with
      | zero => simp [List.filterMap_cons, hb]
      | succ n => simp [List.filterMap_cons, hb, hrest.2 n]

/-- C1: `get_offerings_page(issuer, start, limit)` satisfies the exact
pagination contract: with `count` the issuer's offering count and
`effectiveLimit limit` equal to `limit` unless `limit = 0` or
`limit > MAX_PAGE_LIMIT = 20` (then 20), a `start ≥ count` yields
`([], none)`; otherwise the page holds exactly the offerings at indices
`[start, min (start + effectiveLimit limit) count)` of the issuer's index in
creation order, and the cursor is `some end` when `end < count` and `none`
otherwise — for every reachable state, issuer, start and limit. -/
theorem claim1_offerings_page_contract (s : ContractState) (issuer : Addr)
    (start limit : Nat) (hs : Reachable s) :
    (get_offering_count s issuer ≤ start →
       get_offerings_page s issuer start limit = ([], none)) ∧
    (start < get_offering_count s issuer →
       (get_offerings_page s issuer start limit).1.length
           = min (start + effectiveLimit limit) (get_offering_count s issuer) - start ∧
       (∀ j : Nat,
          j < min (start + effectiveLimit limit) (get_offering_count s issuer) - start →
          (get_offerings_page s issuer start limit).1[j]?
            = ((list_offerings s issuer)[start + j]?).bind
                (fun tk => get_offering s issuer tk)) ∧
       (get_offerings_page s issuer start limit).2
           = (if start + effectiveLimit limit < get_offering_count s issuer
              then some (min (start + effectiveLimit limit) (get_offering_count s issuer))
              else none)) := by
  have hwf := reachable_offerings_indexed s hs
  constructor
  · intro hge
    unfold get_offerings_page
    rw [if_pos hge]
  · intro hlt
    have hnot : ¬ (start ≥ get_offering_count s issuer) := by omega
    have key : get_offerings_page s issuer start limit =
        ((((list_offerings s issuer).drop start).take
            (min (start + effectiveLimit limit) (get_offering_count s issuer)
              - start)).filterMap (fun tk => get_offering s issuer tk),
         if min (start + effectiveLimit limit) (get_offering_count s issuer) <
              get_offering_count s issuer
         then some (min (start + effectiveLimit limit) (get_offering_count s issuer))
         else none) := by
      unfold get_offerings_page
      rw [if_neg hnot]
    have hmem : ∀ tk ∈ ((list_offerings s issuer).drop start).take
        (min (start + effectiveLimit limit) (get_offering_count s issuer) - start),
        ((fun tk => get_offering s issuer tk) tk).isSome = true := by
      intro tk htk
      exact hwf issuer tk (List.mem_of_mem_drop (List.mem_of_mem_take htk))
    have hfm := filterMap_total (fun tk => get_offering s issuer tk)
      (((list_offerings s issuer).drop start).take
        (min (start + effectiveLimit limit) (get_offering_count s issuer) - start)) hmem
    have hcount : get_offering_count s issuer = (list_offerings s issuer).length := rfl
    refine ⟨?_, ?_, ?_⟩
    · rw [key]
      rw [hfm.1, List.length_take, List.length_drop]
      omega
    · intro j hj
      rw [key]
      rw [hfm.2 j]
      rw [List.getElem?_take_of_lt hj, List.getElem?_drop]
    · rw [key]
      by_cases hc : start + effectiveLimit limit < get_offering_count s issuer
      · rw [if_pos (by omega : min (start + effectiveLimit limit)
          (get_offering_count s issuer) < get_offering_count s issuer), if_pos hc]
      · rw [if_neg (by omega : ¬ min (start + effectiveLimit limit)
          (get_offering_count s issuer) < get_offering_count s issuer), if_neg hc]

/-- C1 witness: the pagination contract instantiated on a reachable state
with two offerings, at `start = 1` and the `limit = 0` sentinel. -/
theorem claim1_offerings_page_contract_witness :
    Reachable sPage2 ∧
    (get_offerings_page sPage2 0 1 0).1.length = 1 ∧
    (get_offerings_page sPage2 0 1 0).2 = none := by
  have h1 : register_offering authAll emptyState 0 10 500 =
      Except.ok (sPage1, [Event.offerReg 0 10 500]) := by decide
  have h2 : register_offering authAll sPage1 0 11 600 =
      Except.ok (sPage2, [Event.offerReg 0 11 600]) := by decide
  have hr : Reachable sPage2 :=
    Reachable.register authAll sPage1 0 11 600 sPage2 [Event.offerReg 0 11 600]
      (Reachable.register authAll emptyState 0 10 500 sPage1 [Event.offerReg 0 10 500]
        Reachable.empty h1) h2
  have hmain := claim1_offerings_page_contract sPage2 0 1 0 hr
  refine ⟨hr, ?_, ?_⟩
  · exact ((hmain.2 (by decide)).1).trans (by decide)
  · exact ((hmain.2 (by decide)).2.2).trans (by decide)

/-- C2: for every authorized issuer, fresh `(issuer, token)` pair and
`bps ≤ 10000`, `register_offering` succeeds and a subsequent `get_offering`
returns the record with the registered issuer, token and bps, status
`Active`. -/
theorem claim2_register_then_get (auth : Addr → Bool) (s : ContractState)
    (issuer token : Addr) (bps : Nat) (hauth : auth issuer = true)
    (hbps : bps ≤ 10000) (hfresh : get_offering s issuer token = none) :
    ∃ s' ev, register_offering auth s issuer token bps = Except.ok (s', ev) ∧
      get_offering s' issuer token =
        some ⟨issuer, token, bps, OfferingStatus.active⟩ := by
  have hhas : assocHas s.offeringStore (issuer, token) = false := by
    unfold assocHas
    unfold get_offering at hfresh
    rw [hfresh]
    rfl
  have hbps' : ¬ bps > 10000 := by omega
  refine ⟨{ s with
      offeringStore := assocSet s.offeringStore (issuer, token)
        ⟨issuer, token, bps, OfferingStatus.active⟩,
      issuerOfferingsStore := assocSet s.issuerOfferingsStore issuer
        ((assocGet s.issuerOfferingsStore issuer).getD [] ++ [token]) },
    [Event.offerReg issuer token bps], ?_, ?_⟩
  · simp [register_offering, hauth, hbps', hhas]
  · unfold get_offering
    exact assocGet_set_self s.offeringStore (issuer, token) _

/-- C2 witness: registering `(0, 1, 500)` on the empty store under the
all-permissive authorizer. -/
theorem claim2_register_then_get_witness :
    authAll 0 = true ∧ (500 : Nat) ≤ 10000 ∧ get_offering emptyState 0 1 = none ∧
    (∃ s' ev, register_offering authAll emptyState 0 1 500 = Except.ok (s', ev) ∧
      get_offering s' 0 1 = some ⟨0, 1, 500, OfferingStatus.active⟩) :=
  ⟨rfl, by decide, by decide,
    claim2_register_then_get authAll emptyState 0 1 500 rfl (by decide) (by decide)⟩

/-- C3: for every authorized issuer and every `bps > 10000`,
`register_offering` fails with `InvalidParameter`.  The failing call returns
`Except.error`, which in this embedding carries no successor state: the
transaction aborts with no storage write (the source panics before any
`set`), so no `Offering` is stored and the issuer's index gains no entry. -/
theorem claim3_invalid_bps_rejected (auth : Addr → Bool) (s : ContractState)
    (issuer token : Addr) (bps : Nat) (hauth : auth issuer = true)
    (hbps : bps > 10000) :
    register_offering auth s issuer token bps =
      Except.error ContractError.invalidParameter := by
  simp [register_offering, hauth, hbps]

/-- C3 witness: `bps = 10001` on the empty store. -/
theorem claim3_invalid_bps_rejected_witness :
    authAll 0 = true ∧ (10001 : Nat) > 10000 ∧
    register_offering authAll emptyState 0 1 10001 =
      Except.error ContractError.invalidParameter :=
  ⟨rfl, by decide, claim3_invalid_bps_rejected authAll emptyState 0 1 10001 rfl (by decide)⟩

/-- C4 counterexample: after registering `(0, 1, 500)`, a second
`register_offering(0, 1, 10001)` on the same pair fails with
`InvalidParameter`, not `AlreadyExists`: the source checks the bps range
(lib.rs:49) before the duplicate check (lib.rs:54). -/
theorem claim4_counterexample :
    register_offering authAll emptyState 0 1 500 =
      Except.ok (sReg, [Event.offerReg 0 1 500]) ∧
    register_offering authAll sReg 0 1 10001 =
      Except.error ContractError.invalidParameter ∧
    register_offering authAll sReg 0 1 10001 ≠
      Except.error ContractError.alreadyExists := by decide

/-- C4 (amended): for an authorized issuer and an existing `(issuer, token)`
offering, a second `register_offering` fails with `AlreadyExists` when
`bps ≤ 10000`, and with `InvalidParameter` when `bps > 10000` (the range
check precedes the duplicate check); either way the call returns
`Except.error`, which carries no successor state in this embedding, so the
first registration's stored data is unaffected. -/
theorem claim4_duplicate_registration (auth : Addr → Bool) (s : ContractState)
    (issuer token : Addr) (bps : Nat) (off : Offering)
    (hauth : auth issuer = true)
    (hexists : get_offering s issuer token = some off) :
    (bps ≤ 10000 →
       register_offering auth s issuer token bps =
         Except.error ContractError.alreadyExists) ∧
    (bps > 10000 →
       register_offering auth s issuer token bps =
         Except.error ContractError.invalidParameter) := by
  have hhas : assocHas s.offeringStore (issuer, token) = true := by
    unfold assocHas
    unfold get_offering at hexists
    rw [hexists]
    rfl
  constructor
  · intro hb
    have hb' : ¬ bps > 10000 := by omega
    simp [register_offering, hauth, hb', hhas]
  · intro hb
    simp [register_offering, hauth, hb]

/-- C4 witness: duplicate registration of `(0, 1)` with valid bps. -/
theorem claim4_duplicate_registration_witness :
    authAll 0 = true ∧
    get_offering sReg 0 1 = some ⟨0, 1, 500, OfferingStatus.active⟩ ∧
    ((500 : Nat) ≤ 10000 →
       register_offering authAll sReg 0 1 500 =
         Except.error ContractError.alreadyExists) ∧
    ((500 : Nat) > 10000 →
       register_offering authAll sReg 0 1 500 =
         Except.error ContractError.invalidParameter) :=
  ⟨rfl, by decide,
    claim4_duplicate_registration authAll sReg 0 1 500
      ⟨0, 1, 500, OfferingStatus.active⟩ rfl (by decide)⟩

/-- C5 counterexample: `blacklist_remove` for investor `3`, not blacklisted
for token `7`, succeeds but does NOT leave the persisted state identical:
on a token with no blacklist record the source reads the default empty map
and then unconditionally writes it back (lib.rs:151-154), creating an empty
`Blacklist(7)` record that was not there before. -/
theorem claim5_counterexample :
    is_blacklisted emptyState 7 3 = false ∧
    (3 : Addr) ∉ get_blacklist emptyState 7 ∧
    blacklist_remove authAll emptyState 0 7 3 =
      Except.ok ((⟨[], [], [(7, [])]⟩ : ContractState), [Event.blRem 7 0 3]) ∧
    (⟨[], [], [(7, [])]⟩ : ContractState) ≠ emptyState := by decide

/-- C5 (amended): two `blacklist_add` calls for the same `(token, investor)`
starting from an empty blacklist leave exactly one entry; `blacklist_remove`
for an investor not in the token's set does not fail, leaves membership
false and every blacklist observation (`is_blacklisted`, `get_blacklist`,
all tokens and investors) unchanged, and leaves the persisted state
literally identical whenever the token already has a blacklist record (for a
token with no record it writes back an empty, observationally invisible
record). -/
theorem claim5_blacklist_idempotent (auth : Addr → Bool) (s : ContractState)
    (caller token investor : Addr) (hauth : auth caller = true) :
    (get_blacklist s token = [] →
      ∃ s1 ev1 s2 ev2,
        blacklist_add auth s caller token investor = Except.ok (s1, ev1) ∧
        blacklist_add auth s1 caller token investor = Except.ok (s2, ev2) ∧
        get_blacklist s2 token = [investor]) ∧
    (investor ∉ get_blacklist s token →
      ∃ s' ev,
        blacklist_remove auth s caller token investor = Except.ok (s', ev) ∧
        is_blacklisted s' token investor = false ∧
        (∀ t x : Addr, is_blacklisted s' t x = is_blacklisted s t x) ∧
        (∀ t : Addr, get_blacklist s' t = get_blacklist s t) ∧
        (assocHas s.blacklistStore token = true → s' = s)) := by
  constructor
  · intro hempty
    have hm : (assocGet s.blacklistStore token).getD [] = [] := by
      unfold get_blacklist at hempty
      cases hb : assocGet s.blacklistStore token with
      | none => rfl
      | some m0 =>
        rw [hb] at hempty
        cases m0 with
        | nil => rfl
        | cons q r => simp [mapKeys] at hempty
    refine ⟨{ s with
        blacklistStore := assocSet s.blacklistStore token [(investor, true)] },
      [Event.blAdd token caller investor],
      { s with
        blacklistStore := assocSet (assocSet s.blacklistStore token
          [(investor, true)]) token [(investor, true)] },
      [Event.blAdd token caller investor], ?_, ?_, ?_⟩
    · simp [blacklist_add, hauth, hm, mapSet]
    · simp [blacklist_add, hauth, assocGet_set_self, mapSet]
    · simp [get_blacklist, assocGet_set_self, mapKeys]
  · intro hmem
    cases hb : assocGet s.blacklistStore token with
    | some m0 =>
      have hmem' : investor ∉ mapKeys m0 := by
        unfold get_blacklist at hmem
        rw [hb] at hmem
        exact hmem
      have hrem : mapRemove ((assocGet s.blacklistStore token).getD []) investor = m0 := by
        rw [hb]
        exact mapRemove_of_not_mem m0 investor hmem'
      have hs' : ({ s with
          blacklistStore := assocSet s.blacklistStore token
            (mapRemove ((assocGet s.blacklistStore token).getD []) investor) }
            : ContractState) = s := by
        rw [hrem, assocSet_eq_of_get s.blacklistStore token m0 hb]
      refine ⟨s, [Event.blRem token caller investor], ?_, ?_, ?_, ?_, ?_⟩
      · have hcall : blacklist_remove auth s caller token investor =
            Except.ok (({ s with
              blacklistStore := assocSet s.blacklistStore token
                (mapRemove ((assocGet s.blacklistStore token).getD []) investor) }
                : ContractState),
              [Event.blRem token caller investor]) := by
          simp [blacklist_remove, hauth]
        rw [hcall, hs']
      · unfold is_blacklisted
        rw [hb]
        show (mapGet m0 investor).getD false = false
        rw [(mapGet_eq_none_iff m0 investor).mpr hmem']
        rfl
      · intro t x
        rfl
      · intro t
        rfl
      · intro _
        rfl
    | none =>
      refine ⟨{ s with blacklistStore := assocSet s.blacklistStore token [] },
        [Event.blRem token caller investor], ?_, ?_, ?_, ?_, ?_⟩
      · simp [blacklist_remove, hauth, hb, mapRemove]
      · unfold is_blacklisted
        rw [assocGet_set_self]
        simp [mapGet]
      · intro t x
        unfold is_blacklisted
        by_cases ht : token = t
        · subst ht
          rw [assocGet_set_self, hb]
          simp [mapGet]
        · rw [assocGet_set_ne _ _ _ _ ht]
      · intro t
        unfold get_blacklist
        by_cases ht : token = t
        · subst ht
          rw [assocGet_set_self, hb]
          simp [mapKeys]
        · rw [assocGet_set_ne _ _ _ _ ht]
      · intro hhas
        unfold assocHas at hhas
        rw [hb] at hhas
        simp at hhas

/-- C5 witness: double add then absent remove for `(token 7, investor 3)`
on the empty store. -/
theorem claim5_blacklist_idempotent_witness :
    authAll 0 = true ∧
    (∃ s1 ev1 s2 ev2,
        blacklist_add authAll emptyState 0 7 3 = Except.ok (s1, ev1) ∧
        blacklist_add authAll s1 0 7 3 = Except.ok (s2, ev2) ∧
        get_blacklist s2 7 = [3]) ∧
    (∃ s' ev,
        blacklist_remove authAll emptyState 0 7 3 = Except.ok (s', ev) ∧
        is_blacklisted s' 7 3 = false ∧
        (∀ t x : Addr, is_blacklisted s' t x = is_blacklisted emptyState t x) ∧
        (∀ t : Addr, get_blacklist s' t = get_blacklist emptyState t) ∧
        (assocHas emptyState.blacklistStore 7 = true → s' = emptyState)) :=
  ⟨rfl,
    (claim5_blacklist_idempotent authAll emptyState 0 7 3 rfl).1 (by decide),
    (claim5_blacklist_idempotent authAll emptyState 0 7 3 rfl).2 (by decide)⟩

/-- C6: blacklists of distinct tokens are isolated: a successful
`blacklist_add` or `blacklist_remove` on token `A` leaves `is_blacklisted`
and `get_blacklist` for any other token `B` unchanged. -/
theorem claim6_token_isolation (auth : Addr → Bool) (s : ContractState)
    (caller A B X : Addr) (hAB : A ≠ B) :
    (∀ s' ev, blacklist_add auth s caller A X = Except.ok (s', ev) →
       is_blacklisted s' B X = is_blacklisted s B X ∧
       get_blacklist s' B = get_blacklist s B) ∧
    (∀ s' ev, blacklist_remove auth s caller A X = Except.ok (s', ev) →
       is_blacklisted s' B X = is_blacklisted s B X ∧
       get_blacklist s' B = get_blacklist s B) := by
  constructor
  · intro s' ev heq
    obtain ⟨-, hs', -⟩ := blacklist_add_ok auth s caller A X s' ev heq
    subst hs'
    unfold is_blacklisted get_blacklist
    rw [assocGet_set_ne _ _ _ _ hAB]
    exact ⟨rfl, rfl⟩
  · intro s' ev heq
    obtain ⟨-, hs', -⟩ := blacklist_remove_ok auth s caller A X s' ev heq
    subst hs'
    unfold is_blacklisted get_blacklist
    rw [assocGet_set_ne _ _ _ _ hAB]
    exact ⟨rfl, rfl⟩

/-- C6 witness: adding investor `5` under token `1` leaves token `2`'s
queries unchanged. -/
theorem claim6_token_isolation_witness :
    (1 : Addr) ≠ 2 ∧
    (is_blacklisted (⟨[], [], [(1, [(5, true)])]⟩ : ContractState) 2 5 =
        is_blacklisted emptyState 2 5 ∧
      get_blacklist (⟨[], [], [(1, [(5, true)])]⟩ : ContractState) 2 =
        get_blacklist emptyState 2) :=
  ⟨by decide,
    (claim6_token_isolation authAll emptyState 0 1 2 5 (by decide)).1
      (⟨[], [], [(1, [(5, true)])]⟩ : ContractState) [Event.blAdd 1 0 5] (by decide)⟩

/-- C7: for an authorized issuer, `report_revenue` returns the state
unchanged and emits exactly one notification, whose blacklist payload is
`get_blacklist token` evaluated on the state at call time (the empty
sequence included when no blacklist is recorded). -/
theorem claim7_report_revenue_snapshot (auth : Addr → Bool) (s : ContractState)
    (issuer token : Addr) (amount : Int) (pid : Nat)
    (hauth : auth issuer = true) :
    report_revenue auth s issuer token amount pid =
      Except.ok (s, [Event.revRep issuer token amount pid (get_blacklist s token)]) := by
  simp [report_revenue, hauth]

/-- C7 witness: a revenue report on the empty store carries the empty
blacklist snapshot. -/
theorem claim7_report_revenue_snapshot_witness :
    authAll 0 = true ∧
    report_revenue authAll emptyState 0 7 1000000 1 =
      Except.ok (emptyState,
        [Event.revRep 0 7 1000000 1 (get_blacklist emptyState 7)]) :=
  ⟨rfl, claim7_report_revenue_snapshot authAll emptyState 0 7 1000000 1 rfl⟩

/-- C8: the query entry points are total on missing data: with no stored
record under the probed key, `get_offering` returns `none`, `list_offerings`
the empty sequence, `is_blacklisted` `false` and `get_blacklist` the empty
sequence.  None of them can signal an error: their return types in the
embedding are plain values, not `Except`. -/
theorem claim8_queries_total_on_missing (s : ContractState)
    (issuer token investor : Addr) :
    (assocHas s.offeringStore (issuer, token) = false →
       get_offering s issuer token = none) ∧
    (assocHas s.issuerOfferingsStore issuer = false →
       list_offerings s issuer = []) ∧
    (assocHas s.blacklistStore token = false →
       is_blacklisted s token investor = false ∧ get_blacklist s token = []) := by
  refine ⟨?_, ?_, ?_⟩
  · intro h
    unfold get_offering
    unfold assocHas at h
    cases hx : assocGet s.offeringStore (issuer, token) with
    | none => rfl
    | some v =>
      rw [hx] at h
      simp at h
  · intro h
    unfold list_offerings
    unfold assocHas at h
    cases hx : assocGet s.issuerOfferingsStore issuer with
    | none => rfl
    | some v =>
      rw [hx] at h
      simp at h
  · intro h
    unfold assocHas at h
    cases hx : assocGet s.blacklistStore token with
    | some v =>
      rw [hx] at h
      simp at h
    | none =>
      constructor
      · unfold is_blacklisted
        rw [hx]
      · unfold get_blacklist
        rw [hx]

/-- C8 witness: probing the empty store. -/
theorem claim8_queries_total_on_missing_witness :
    assocHas emptyState.offeringStore ((0 : Addr), (1 : Addr)) = false ∧
    assocHas emptyState.issuerOfferingsStore (0 : Addr) = false ∧
    assocHas emptyState.blacklistStore (1 : Addr) = false ∧
    get_offering emptyState 0 1 = none ∧
    list_offerings emptyState 0 = [] ∧
    is_blacklisted emptyState 1 2 = false ∧ get_blacklist emptyState 1 = [] :=
  ⟨by decide, by decide, by decide,
    (claim8_queries_total_on_missing emptyState 0 1 2).1 (by decide),
    (claim8_queries_total_on_missing emptyState 0 1 2).2.1 (by decide),
    (claim8_queries_total_on_missing emptyState 0 1 2).2.2 (by decide)⟩

/-- C9: in every reachable state the two blacklist queries agree:
`is_blacklisted token investor` is `true` exactly when `investor` appears in
`get_blacklist token`; the quantification over `Reachable` states shows every
public operation preserves this consistency. -/
theorem claim9_blacklist_queries_agree (s : ContractState) (hs : Reachable s)
    (token investor : Addr) :
    (is_blacklisted s token investor = true ↔
      investor ∈ get_blacklist s token) := by
  have hv := reachable_blacklist_values_true s hs
  unfold is_blacklisted get_blacklist
  cases hb : assocGet s.blacklistStore token with
  | none => simp
  | some m =>
    have hall := hv token m hb
    show (mapGet m investor).getD false = true ↔ investor ∈ mapKeys m
    constructor
    · intro h
      by_contra hmem
      rw [(mapGet_eq_none_iff m investor).mpr hmem] at h
      simp at h
    · intro hmem
      cases hg : mapGet m investor with
      | none => exact absurd hmem ((mapGet_eq_none_iff m investor).mp hg)
      | some v =>
        have hvtrue : v = true := hall (investor, v) (mapGet_mem m investor v hg)
        rw [hvtrue]
        rfl

/-- C9 witness: the agreement instantiated on the reachable state with
investor `3` blacklisted for token `7`. -/
theorem claim9_blacklist_queries_agree_witness :
    Reachable sBl ∧
    (is_blacklisted sBl 7 3 = true ↔ (3 : Addr) ∈ get_blacklist sBl 7) := by
  have hr : Reachable sBl :=
    Reachable.bladd authAll emptyState 0 7 3 sBl [Event.blAdd 7 0 3]
      Reachable.empty (by decide)
  exact ⟨hr, claim9_blacklist_queries_agree sBl hr 7 3⟩

/-- C10: `report_revenue` validates nothing but caller authorization: for
every state (registered offering or not), every `Int` amount (zero and
negative included) and every period id, an authorized call succeeds, and an
unauthorized call fails with `Unauthorized`. -/
theorem claim10_report_no_validation (auth : Addr → Bool) (s : ContractState)
    (issuer token : Addr) (amount : Int) (pid : Nat) :
    (auth issuer = true →
       report_revenue auth s issuer token amount pid =
         Except.ok (s,
           [Event.revRep issuer token amount pid (get_blacklist s token)])) ∧
    (auth issuer = false →
       report_revenue auth s issuer token amount pid =
         Except.error ContractError.unauthorized) := by
  constructor <;> intro h <;> simp [report_revenue, h]

/-- C10 witness: a report with a negative amount for a pair with no
registered offering succeeds. -/
theorem claim10_report_no_validation_witness :
    get_offering emptyState 0 9 = none ∧
    report_revenue authAll emptyState 0 9 (-5) 0 =
      Except.ok (emptyState, [Event.revRep 0 9 (-5) 0 (get_blacklist emptyState 9)]) :=
  ⟨by decide, (claim10_report_no_validation authAll emptyState 0 9 (-5) 0).1 rfl⟩
